import Mathlib

/-!
Verification of the ada-scanner repository: a shallow embedding of the
consolidation utility (src/utils/combine-sheets.js) and of the per-page
collection pipelines (src/tests/ada.test.ts, src/tests/at-scale.test.ts,
src/tests/tfg.test.ts), together with theorems settling the frozen claims
about duplicate detection, stable-index removal, output-file production,
error handling and filename sanitization.
-/

namespace AdaScanner

/-- The eleven-field violation record moving through both pipelines
(interface DataRow in the test suites; the row objects produced by
XLSX.utils.sheet_to_json in combine-sheets.js).  Fields that can be
missing on a row (an absent cell in the sheet, or an engine value of
undefined) are modelled as Option, with none standing for the absent
value; JavaScript strict equality on two absent fields is then the
equality none = none. -/
structure ViolationRecord where
  page : String := ""
  device : String := ""
  id : String := ""
  impact : Option String := none
  tags : String := ""
  description : String := ""
  help : String := ""
  helpUrl : String := ""
  html : String := ""
  target : Option String := none
  failureSummary : Option String := none
deriving DecidableEq, Repr, Inhabited

/-- The de-duplication key: the pair of fields compared by the detection
pass (combine-sheets.js lines 198-206). -/
def dupKey (r : ViolationRecord) : Option String × Option String :=
  (r.target, r.failureSummary)

/-- Stage 2 of combine-sheets.js (lines 166-209): the nested
sheetData.forEach loops.  For every pair of positions with
innerIndex > outerIndex whose records agree on target and on
failureSummary, innerIndex is pushed onto indicesToDelete.  The outer
loop runs over all indices in order and the inner loop pushes matching
inner indices in ascending order, which is exactly a flatMap of a filter
over the index ranges. -/
def indicesToDelete (sheetData : List ViolationRecord) : List Nat :=
  (List.range sheetData.length).flatMap fun outerIndex =>
    (List.range sheetData.length).filter fun innerIndex =>
      decide (outerIndex < innerIndex)
        && decide ((sheetData.getD outerIndex default).target
              = (sheetData.getD innerIndex default).target)
        && decide ((sheetData.getD outerIndex default).failureSummary
              = (sheetData.getD innerIndex default).failureSummary)

/-- Substage 3A of combine-sheets.js (lines 222-241): the filter over
indicesToDelete with a seen Set, keeping each index only the first time
it appears. -/
def uniqueFilter (seen : List Nat) : List Nat → List Nat
  | [] => []
  | x :: xs => if x ∈ seen then uniqueFilter seen xs else x :: uniqueFilter (x :: seen) xs

/-- Substage 3B of combine-sheets.js (line 262): uniqueArray.sort((a, b) => b - a),
a numeric sort into descending order.  The input is duplicate-free, so any
comparison sort yields this unique descending arrangement. -/
def sortDesc (l : List Nat) : List Nat := List.insertionSort (· ≥ ·) l

/-- One sheetData.splice(element, 1) call (combine-sheets.js line 273):
remove the single entry at position i, leaving the list unchanged when i
is out of range. -/
def spliceRemove (arr : List α) (i : Nat) : List α := arr.take i ++ arr.drop (i + 1)

/-- The full deletion schedule handed to the splice loop: detected
indices, deduplicated, sorted descending. -/
def deletionSchedule (sheetData : List ViolationRecord) : List Nat :=
  sortDesc (uniqueFilter [] (indicesToDelete sheetData))

/-- Stages 2-3 of combine-sheets.js as one function: detect duplicates,
deduplicate and sort the marked indices, then splice each one out
(lines 166-274). -/
def removeDuplicates (sheetData : List ViolationRecord) : List ViolationRecord :=
  (deletionSchedule sheetData).foldl spliceRemove sheetData

/-- Specification-side description of the pass ("first occurrence in the
given sequence wins"): walk the list keeping a record exactly when its
de-duplication key has not been seen before. -/
def keepFirst (seen : List (Option String × Option String)) :
    List ViolationRecord → List ViolationRecord
  | [] => []
  | r :: rs =>
    if dupKey r ∈ seen then keepFirst seen rs
    else r :: keepFirst (dupKey r :: seen) rs

/-- Remove from a list every position at which the given index predicate
holds (proof-side helper relating positional splicing to index sets). -/
def eraseIdxSet : List α → (Nat → Bool) → List α
  | [], _ => []
  | a :: l, S => (if S 0 then [] else [a]) ++ eraseIdxSet l (fun i => S (i + 1))

/-- Position i carries a record whose de-duplication key already occurred
at some earlier position. -/
def hasEarlierDup (l : List ViolationRecord) (i : Nat) : Bool :=
  (List.range i).any fun j =>
    decide (dupKey (l.getD j default) = dupKey (l.getD i default))

/-- path.extname for a plain directory-entry name (no directory part, as
returned by fs.readdir): the suffix starting at the last dot that is not
the leading character, and the empty string when there is no such dot. -/
def extname (s : String) : String :=
  match ((List.range s.toList.length).filter fun i =>
      decide (s.toList.getD i ' ' = '.') && decide (i ≠ 0)).getLast? with
  | some i => String.mk (s.toList.drop i)
  | none => ""

/-- The value held by the lastIndex variable of combine-sheets.js: it
starts as the number files.length - 1 and is overwritten with the boolean
true by the ternary on line 127, so at any time it is either a number or
true. -/
inductive JsLastIndex where
  | num (v : Int)
  | tru
deriving DecidableEq, Repr

/-- JavaScript strict equality lastIndex === index between the current
lastIndex value and a loop index: a number compares by value, the boolean
true is never equal to a number. -/
def jsEqIndex : JsLastIndex → Nat → Bool
  | .num v, i => v == (i : Int)
  | .tru, _ => false

/-- JavaScript strict equality lastIndex === true (combine-sheets.js
line 77): holds only when the variable holds the boolean itself. -/
def jsIsTrue : JsLastIndex → Bool
  | .tru => true
  | .num _ => false

/-- Mutable state of the consolidation run: the global sheetData array,
the content written to master-list.xlsx when that write has happened, and
the lastIndex variable. -/
structure MergeState where
  sheetData : List ViolationRecord
  master : Option (List ViolationRecord)
  lastIndex : JsLastIndex
deriving DecidableEq, Repr

/-- One iteration of the files.forEach callback of combine-sheets.js
(lines 124-136) together with the body of appendDataToSheet
(lines 52-85).  The entry carries its readdir position, its name and its
read outcome: ok rows for a readable sheet, error for a file whose
readFileSync throws.  The ternary updates lastIndex first; a non-xlsx
name is skipped entirely; a throwing read leaves the state untouched
(the exception is swallowed by the async call, nothing is pushed and the
master write is skipped); otherwise the rows are appended and, when
lastIndex === true, the accumulated array is written as the master list. -/
def processEntry (st : MergeState)
    (entry : Nat × String × Except Unit (List ViolationRecord)) : MergeState :=
  let li := if jsEqIndex st.lastIndex entry.1 then JsLastIndex.tru else st.lastIndex
  if extname entry.2.1 = ".xlsx" then
    match entry.2.2 with
    | .ok rows =>
        let newData := st.sheetData ++ rows
        { sheetData := newData
          master := if jsIsTrue li then some newData else st.master
          lastIndex := li }
    | .error _ => { st with lastIndex := li }
  else { st with lastIndex := li }

/-- Stage 1 of combine-sheets.js: fold the forEach over the enumerated
directory listing, starting from an empty sheetData array, no master
written, and lastIndex = files.length - 1. -/
def mergeFold (files : List (String × Except Unit (List ViolationRecord))) : MergeState :=
  files.enum.foldl processEntry
    { sheetData := [], master := none, lastIndex := .num ((files.length : Int) - 1) }

/-- The records accumulated in sheetData after stage 1. -/
def loadedRecords (files : List (String × Except Unit (List ViolationRecord))) :
    List ViolationRecord :=
  (mergeFold files).sheetData

/-- The two files a consolidation run can write: master is the content of
master-list.xlsx when it was written, none when the write never happened;
workList likewise for work-list.xlsx. -/
structure ConsolidationResult where
  master : Option (List ViolationRecord)
  workList : Option (List ViolationRecord)
deriving DecidableEq, Repr

/-- A whole consolidation run of combine-sheets.js over a directory
listing (assuming fs.readdir itself succeeds): stage 1 folds the files
into sheetData and possibly writes the master list; stages 2-4 always
run at the end of the callback and write work-list.xlsx from the
deduplicated sheetData. -/
def runConsolidation (files : List (String × Except Unit (List ViolationRecord))) :
    ConsolidationResult :=
  let st := mergeFold files
  { master := st.master, workList := some (removeDuplicates st.sheetData) }

/-- An ASCII letter or digit: the characters the class [^a-z0-9] with
flag i leaves unchanged. -/
def isAsciiAlphanum (c : Char) : Bool :=
  ('a' ≤ c && c ≤ 'z') || ('A' ≤ c && c ≤ 'Z') || ('0' ≤ c && c ≤ '9')

/-- The sanitization of tfg.test.ts line 148 and at-scale.test.ts line 88:
slug.replace with pattern [^a-z0-9], flags g and i, replacement underscore
- every character outside [A-Za-z0-9] becomes an underscore. -/
def sanitizeSlug (s : String) : String :=
  String.mk (s.toList.map fun c => if isAsciiAlphanum c then c else '_')

/-- A character admitted by the target shape [A-Za-z0-9_] of a sanitized
destination name. -/
def isSafeChar (c : Char) : Bool := isAsciiAlphanum c || c = '_'

/-- A character matched by the JavaScript regular-expression class
backslash-s: the whitespace and line-terminator code points. -/
def isJsWs (c : Char) : Bool :=
  c = ' ' || c = '\t' || c = '\n' || c = '\u000b' || c = '\u000c' || c = '\r'
  || c = '\u00a0' || c = '\u1680' || ('\u2000' ≤ c && c ≤ '\u200a')
  || c = '\u2028' || c = '\u2029' || c = '\u202f' || c = '\u205f'
  || c = '\u3000' || c = '\ufeff'

/-- browserName.replace of tfg.test.ts line 262 (pattern backslash-s-plus,
flag g, replacement underscore): each maximal run of whitespace collapses
to a single underscore.  The boolean records whether the previous
character was part of a whitespace run. -/
def collapseWsAux : Bool → List Char → List Char
  | _, [] => []
  | prevWs, c :: cs =>
    if isJsWs c then (if prevWs then [] else ['_']) ++ collapseWsAux true cs
    else c :: collapseWsAux false cs

/-- browserName with every whitespace run replaced by one underscore. -/
def collapseWs (s : String) : String := String.mk (collapseWsAux false s.toList)

/-- Filename logic of ada.test.ts lines 170-172 and 95-99: the slug is
used verbatim as the destination stem, except that the empty slug becomes
home.  No sanitization is applied. -/
def adaFileName (slug : String) : String := if slug = "" then "home" else slug

/-- State of one worker process running the ada.test.ts suite: the
module-global sheetData array (line 79) and the sequence of write events
(destination stem, content written) performed so far. -/
structure AdaState where
  sheetData : List ViolationRecord
  files : List (String × List ViolationRecord)
deriving DecidableEq, Repr

/-- One page visit of ada.test.ts (lines 113-186): the flattened records
of this page are pushed onto the module-global array, and a file named
after the slug is written from that global array whenever the global
array is nonempty (lines 170-173 guard on sheetData.length, line 96
serializes the global sheetData). -/
def adaVisit (st : AdaState) (slug : String) (pageRecords : List ViolationRecord) :
    AdaState :=
  let g := st.sheetData ++ pageRecords
  if g.length > 0 then { sheetData := g, files := st.files ++ [(adaFileName slug, g)] }
  else { sheetData := g, files := st.files }

/-- A sequence of page visits of the ada.test.ts suite inside one worker,
each visit given as (slug, flattened records of that page), starting from
the empty module-global state. -/
def adaRun (visits : List (String × List ViolationRecord)) : AdaState :=
  visits.foldl (fun st v => adaVisit st v.1 v.2) { sheetData := [], files := [] }

/-- Special-case slug rewriting of tfg.test.ts lines 256-261: the empty
slug becomes home, two legacy loc/ paths are shortened, every other slug
passes through. -/
def tfgFilenameSlug (slug : String) : String :=
  let f := if slug = "" then "home" else slug
  if f = "loc/warwick-pizza/" then "warwick-pizza"
  else if f = "loc/catering-inquiry" then "catering-inquiry"
  else f

/-- The destination stem tfg.test.ts passes to its sheetWriter (line 262)
after the writer sanitizes it (line 148): filenameSlug, underscore, and
the project name with whitespace runs collapsed, the whole string then
sanitized. -/
def tfgDestination (slug browserName : String) : String :=
  sanitizeSlug (tfgFilenameSlug slug ++ "_" ++ collapseWs browserName)

/-- One page visit of tfg.test.ts (lines 184-278): the record sequence is
accumulated in a test-local array (line 203), and a file is written from
that local array only when it is nonempty (line 245 guard); the write
event is returned, none when no file is written. -/
def tfgVisit (slug browserName : String) (pageRecords : List ViolationRecord) :
    Option (String × List ViolationRecord) :=
  if pageRecords.length > 0 then some (tfgDestination slug browserName, pageRecords)
  else none

/-- A sequence of page visits of the tfg.test.ts suite, each given as
(slug, project name, flattened records); the result is the sequence of
write events. -/
def tfgRun (visits : List (String × String × List ViolationRecord)) :
    List (String × List ViolationRecord) :=
  visits.filterMap fun v => tfgVisit v.1 v.2.1 v.2.2

/-- Concrete record with key (t1, s1), first page. -/
def recA : ViolationRecord := { page := "p1", target := some "t1", failureSummary := some "s1" }

/-- Concrete record with key (t1, s1), second page: a duplicate of recA. -/
def recB : ViolationRecord := { page := "p2", target := some "t1", failureSummary := some "s1" }

/-- Concrete record with key (t2, s1): its target differs from recA. -/
def recC : ViolationRecord := { page := "p3", target := some "t2", failureSummary := some "s1" }

/-- Concrete record with key (x, none). -/
def recX : ViolationRecord := { target := some "x" }

/-- Concrete record with key (y, none). -/
def recY : ViolationRecord := { target := some "y" }

/-- Concrete record with key (z, none). -/
def recZ : ViolationRecord := { target := some "z" }

theorem eraseIdxSet_of_false (l : List α) (S : Nat → Bool) (h : ∀ i, S i = false) :
    eraseIdxSet l S = l := by
  induction l generalizing S with
  | nil => rfl
  | cons a l ih => simp [eraseIdxSet, h 0, ih _ (fun i => h (i + 1))]

theorem eraseIdxSet_congr (l : List α) (S T : Nat → Bool)
    (h : ∀ i, i < l.length → S i = T i) : eraseIdxSet l S = eraseIdxSet l T := by
  induction l generalizing S T with
  | nil => rfl
  | cons a l ih =>
      simp only [eraseIdxSet]
      rw [h 0 (by simp), ih _ _ (fun i hi => h (i + 1) (by simpa using hi))]

theorem spliceRemove_eq_eraseIdx (l : List α) (i : Nat) :
    spliceRemove l i = l.eraseIdx i := by
  induction l generalizing i with
  | nil => simp [spliceRemove]
  | cons a l ih =>
      cases i with
      | zero => simp [spliceRemove, List.eraseIdx]
      | succ n => simp [spliceRemove, List.eraseIdx, ← ih n]

theorem eraseIdxSet_eraseIdx (l : List α) (d : Nat) (S : Nat → Bool)
    (h : ∀ i, d ≤ i → S i = false) :
    eraseIdxSet (l.eraseIdx d) S = eraseIdxSet l (fun i => decide (i = d) || S i) := by
  induction l generalizing d S with
  | nil => rfl
  | cons a l ih =>
      cases d with
      | zero =>
          have hS : ∀ i, S i = false := fun i => h i (Nat.zero_le i)
          show eraseIdxSet l S
            = (if (decide ((0 : Nat) = 0) || S 0) then [] else [a])
              ++ eraseIdxSet l (fun i => decide (i + 1 = 0) || S (i + 1))
          rw [eraseIdxSet_of_false _ _ hS,
            eraseIdxSet_of_false l (fun i => decide (i + 1 = 0) || S (i + 1))
              (fun i => by simp [hS (i + 1)])]
          simp
      | succ d =>
          show (if S 0 then [] else [a]) ++ eraseIdxSet (l.eraseIdx d) (fun i => S (i + 1))
            = (if (decide ((0 : Nat) = d + 1) || S 0) then [] else [a])
              ++ eraseIdxSet l (fun i => decide (i + 1 = d + 1) || S (i + 1))
          rw [ih d _ (fun i hi => h (i + 1) (Nat.succ_le_succ hi))]
          have h0 : (decide ((0 : Nat) = d + 1) || S 0) = S 0 := by simp
          rw [h0]
          congr 1
          apply eraseIdxSet_congr
          intro i _
          rw [decide_eq_decide.mpr (by omega : (i = d) ↔ (i + 1 = d + 1))]

theorem foldl_spliceRemove_eq (ds : List Nat) (hds : ds.Pairwise (· > ·)) (l : List α) :
    ds.foldl spliceRemove l = eraseIdxSet l (fun i => decide (i ∈ ds)) := by
  induction ds generalizing l with
  | nil =>
      simp only [List.foldl_nil]
      exact (eraseIdxSet_of_false _ _ (fun i => by simp)).symm
  | cons d ds ih =>
      have hgt : ∀ x ∈ ds, d > x := (List.pairwise_cons.mp hds).1
      rw [List.foldl_cons, ih (List.pairwise_cons.mp hds).2, spliceRemove_eq_eraseIdx,
        eraseIdxSet_eraseIdx _ _ _
          (fun i hi => decide_eq_false (fun hmem => absurd (hgt i hmem) (by omega)))]
      apply eraseIdxSet_congr
      intro i _
      have hdec : (decide (i ∈ d :: ds) : Bool) = decide (i = d ∨ i ∈ ds) :=
        decide_eq_decide.mpr List.mem_cons
      rw [hdec]
      cases hd : decide (i = d) <;> cases hds2 : decide (i ∈ ds) <;> simp_all

theorem hasEarlierDup_iff (l : List ViolationRecord) (i : Nat) :
    hasEarlierDup l i = true ↔
      ∃ j, j < i ∧ dupKey (l.getD j default) = dupKey (l.getD i default) := by
  simp [hasEarlierDup, List.any_eq_true, List.mem_range]

theorem mem_indicesToDelete (l : List ViolationRecord) (i : Nat) :
    i ∈ indicesToDelete l ↔ i < l.length ∧ hasEarlierDup l i = true := by
  rw [indicesToDelete, List.mem_flatMap, hasEarlierDup_iff]
  constructor
  · rintro ⟨o, ho, hmem⟩
    rw [List.mem_filter, List.mem_range] at hmem
    obtain ⟨hi, hcond⟩ := hmem
    simp only [Bool.and_eq_true, decide_eq_true_eq] at hcond
    obtain ⟨⟨hoi, ht⟩, hf⟩ := hcond
    refine ⟨hi, o, hoi, ?_⟩
    simp only [dupKey, Prod.mk.injEq]
    exact ⟨ht, hf⟩
  · rintro ⟨hi, j, hj, hkey⟩
    simp only [dupKey, Prod.mk.injEq] at hkey
    refine ⟨j, ?_, ?_⟩
    · rw [List.mem_range]
      omega
    · rw [List.mem_filter, List.mem_range]
      refine ⟨hi, ?_⟩
      simp only [Bool.and_eq_true, decide_eq_true_eq]
      exact ⟨⟨hj, hkey.1⟩, hkey.2⟩

theorem mem_uniqueFilter (x : Nat) (l seen : List Nat) :
    x ∈ uniqueFilter seen l ↔ x ∈ l ∧ x ∉ seen := by
  induction l generalizing seen with
  | nil => simp [uniqueFilter]
  | cons y l ih =>
      by_cases hy : y ∈ seen
      · rw [uniqueFilter, if_pos hy]
        simp only [List.mem_cons, ih]
        constructor
        · rintro ⟨h1, h2⟩
          exact ⟨Or.inr h1, h2⟩
        · rintro ⟨rfl | h1, h2⟩
          · exact absurd hy h2
          · exact ⟨h1, h2⟩
      · rw [uniqueFilter, if_neg hy]
        simp only [List.mem_cons, ih]
        constructor
        · rintro (rfl | ⟨h1, h2⟩)
          · exact ⟨Or.inl rfl, hy⟩
          · push_neg at h2
            exact ⟨Or.inr h1, h2.2⟩
        · rintro ⟨rfl | h1, h2⟩
          · exact Or.inl rfl
          · by_cases hxy : x = y
            · exact Or.inl hxy
            · refine Or.inr ⟨h1, ?_⟩
              push_neg
              exact ⟨hxy, h2⟩

theorem nodup_uniqueFilter (l seen : List Nat) : (uniqueFilter seen l).Nodup := by
  induction l generalizing seen with
  | nil => simp [uniqueFilter]
  | cons y l ih =>
      by_cases hy : y ∈ seen
      · rw [uniqueFilter, if_pos hy]
        exact ih seen
      · rw [uniqueFilter, if_neg hy]
        refine List.nodup_cons.mpr ⟨fun hmem => ?_, ih _⟩
        have := ((mem_uniqueFilter y l (y :: seen)).mp hmem).2
        simp at this

theorem deletionSchedule_pairwise (l : List ViolationRecord) :
    (deletionSchedule l).Pairwise (· > ·) := by
  have hs : List.Sorted (· ≥ ·) (deletionSchedule l) :=
    List.sorted_insertionSort _ _
  have hn : (deletionSchedule l).Nodup :=
    (List.perm_insertionSort (· ≥ ·) (uniqueFilter [] (indicesToDelete l))).nodup_iff.mpr
      (nodup_uniqueFilter _ _)
  exact (List.Pairwise.and hs hn).imp
    (fun h => lt_of_le_of_ne h.1 (Ne.symm h.2))

theorem keepFirst_congr (s t : List (Option String × Option String))
    (hs : ∀ k, k ∈ s ↔ k ∈ t) (l : List ViolationRecord) :
    keepFirst s l = keepFirst t l := by
  induction l generalizing s t with
  | nil => rfl
  | cons r l ih =>
      by_cases h : dupKey r ∈ s
      · rw [keepFirst, keepFirst, if_pos h, if_pos ((hs _).mp h), ih _ _ hs]
      · rw [keepFirst, keepFirst, if_neg h, if_neg (fun hc => h ((hs _).mpr hc)),
          ih (dupKey r :: s) (dupKey r :: t)
            (fun k => by simp only [List.mem_cons, hs k])]

theorem eraseIdxSet_keepFirst (l : List ViolationRecord)
    (seen : List (Option String × Option String)) :
    eraseIdxSet l
      (fun i => decide (dupKey (l.getD i default) ∈ seen) || hasEarlierDup l i)
    = keepFirst seen l := by
  induction l generalizing seen with
  | nil => rfl
  | cons a l ih =>
      have hshift : ∀ i : Nat,
          (decide (dupKey ((a :: l).getD (i + 1) default) ∈ seen)
            || hasEarlierDup (a :: l) (i + 1))
          = (decide (dupKey (l.getD i default) ∈ dupKey a :: seen)
            || hasEarlierDup l i) := by
        intro i
        rw [Bool.eq_iff_iff]
        simp only [Bool.or_eq_true, decide_eq_true_eq, hasEarlierDup_iff,
          List.getD_cons_succ, List.mem_cons]
        constructor
        · rintro (hseen | ⟨j, hj, hkey⟩)
          · exact Or.inl (Or.inr hseen)
          · cases j with
            | zero =>
                rw [List.getD_cons_zero] at hkey
                exact Or.inl (Or.inl hkey.symm)
            | succ j =>
                rw [List.getD_cons_succ] at hkey
                exact Or.inr ⟨j, Nat.lt_of_succ_lt_succ hj, hkey⟩
        · rintro ((heq | hseen) | ⟨j, hj, hkey⟩)
          · refine Or.inr ⟨0, Nat.succ_pos i, ?_⟩
            rw [List.getD_cons_zero]
            exact heq.symm
          · exact Or.inl hseen
          · refine Or.inr ⟨j + 1, Nat.succ_lt_succ hj, ?_⟩
            rw [List.getD_cons_succ]
            exact hkey
      have hzero :
          (decide (dupKey ((a :: l).getD 0 default) ∈ seen) || hasEarlierDup (a :: l) 0)
          = decide (dupKey a ∈ seen) := by
        simp [hasEarlierDup]
      simp only [eraseIdxSet]
      simp only [hzero]
      rw [funext hshift, ih]
      by_cases hmem : dupKey a ∈ seen
      · have hsame : keepFirst (dupKey a :: seen) l = keepFirst seen l := by
          apply keepFirst_congr
          intro k
          simp only [List.mem_cons]
          constructor
          · rintro (rfl | hk)
            · exact hmem
            · exact hk
          · exact Or.inr
        simp [keepFirst, hmem, hsame]
      · simp [keepFirst, hmem]

theorem removeDuplicates_eq_eraseIdxSet (l : List ViolationRecord) :
    removeDuplicates l = eraseIdxSet l (hasEarlierDup l) := by
  rw [removeDuplicates, foldl_spliceRemove_eq _ (deletionSchedule_pairwise l)]
  apply eraseIdxSet_congr
  intro i hi
  rw [Bool.eq_iff_iff]
  simp only [decide_eq_true_eq]
  constructor
  · intro hmem
    have h1 : i ∈ uniqueFilter [] (indicesToDelete l) :=
      ((List.perm_insertionSort _ _).mem_iff).mp hmem
    exact ((mem_indicesToDelete _ _).mp ((mem_uniqueFilter _ _ _).mp h1).1).2
  · intro hdup
    apply ((List.perm_insertionSort _ _).mem_iff).mpr
    exact (mem_uniqueFilter _ _ _).mpr
      ⟨(mem_indicesToDelete _ _).mpr ⟨hi, hdup⟩, by simp⟩

theorem removeDuplicates_eq_keepFirst (l : List ViolationRecord) :
    removeDuplicates l = keepFirst [] l := by
  rw [removeDuplicates_eq_eraseIdxSet, ← eraseIdxSet_keepFirst l []]
  apply eraseIdxSet_congr
  intro i _
  simp

theorem keepFirst_idem (l : List ViolationRecord)
    (seen : List (Option String × Option String)) :
    keepFirst seen (keepFirst seen l) = keepFirst seen l := by
  induction l generalizing seen with
  | nil => rfl
  | cons a l ih =>
      by_cases h : dupKey a ∈ seen
      · simp [keepFirst, h, ih]
      · simp [keepFirst, h, ih]

theorem keepFirst_countP (l : List ViolationRecord)
    (seen : List (Option String × Option String)) (k : Option String × Option String) :
    (keepFirst seen l).countP (fun r => decide (dupKey r = k))
    = if k ∈ seen then 0 else min (l.countP fun r => decide (dupKey r = k)) 1 := by
  induction l generalizing seen with
  | nil => simp [keepFirst]
  | cons a l ih =>
      by_cases h : dupKey a ∈ seen
      · rw [keepFirst, if_pos h, ih, List.countP_cons]
        by_cases hk : k ∈ seen
        · simp [hk]
        · have hak : ¬(dupKey a = k) := fun hc => hk (hc ▸ h)
          simp [hk, hak]
      · rw [keepFirst, if_neg h, List.countP_cons, ih, List.countP_cons]
        by_cases hak : dupKey a = k
        · have hk : k ∉ seen := fun hc => h (hak ▸ hc)
          have hkcons : k ∈ dupKey a :: seen := by
            rw [List.mem_cons]
            exact Or.inl hak.symm
          rw [if_pos hkcons, if_neg hk]
          have hdecak : (decide (dupKey a = k) : Bool) = true := decide_eq_true hak
          rw [hdecak, if_pos rfl, min_eq_right (by omega : 1 ≤ _)]
        · have hkcons : (k ∈ dupKey a :: seen) ↔ k ∈ seen := by
            rw [List.mem_cons]
            constructor
            · rintro (rfl | hkc)
              · exact absurd rfl hak
              · exact hkc
            · exact Or.inr
          have hdecak : (decide (dupKey a = k) : Bool) = false :=
            decide_eq_false hak
          rw [hdecak]
          by_cases hk : k ∈ seen
          · rw [if_pos (hkcons.mpr hk), if_pos hk]
            simp
          · rw [if_neg (fun hc => hk (hkcons.mp hc)), if_neg hk]
            simp

/-- Claim C1: the duplicate-removal pass retains exactly one representative
per distinct (target, failureSummary) key - the record with the smallest
original index, since the pass equals the first-occurrence filter
keepFirst - and every equivalence class of size k keeps min(k, 1) records,
so a class of size k > 1 loses exactly k - 1; in particular on
[recA, recB, recC], where recB duplicates recA and recC has another
target, the output is [recA, recC]. -/
theorem dedup_keeps_first_occurrence :
    (∀ l, removeDuplicates l = keepFirst [] l)
    ∧ (∀ l k, (removeDuplicates l).countP (fun r => decide (dupKey r = k))
        = min (l.countP fun r => decide (dupKey r = k)) 1)
    ∧ removeDuplicates [recA, recB, recC] = [recA, recC] := by
  refine ⟨removeDuplicates_eq_keepFirst, fun l k => ?_, by decide⟩
  rw [removeDuplicates_eq_keepFirst, keepFirst_countP]
  simp

/-- Claim C2: the deletion schedule applied by the splice loop is
duplicate-free and strictly descending, and for any 5-element input in
which exactly positions 1 and 3 carry a record whose key already occurred
earlier, the pass returns exactly the elements originally at positions
0, 2 and 4, in that order. -/
theorem index_safe_removal :
    (∀ l, (deletionSchedule l).Pairwise (· > ·) ∧ (deletionSchedule l).Nodup)
    ∧ (∀ a b c d e : ViolationRecord,
        hasEarlierDup [a, b, c, d, e] 0 = false →
        hasEarlierDup [a, b, c, d, e] 1 = true →
        hasEarlierDup [a, b, c, d, e] 2 = false →
        hasEarlierDup [a, b, c, d, e] 3 = true →
        hasEarlierDup [a, b, c, d, e] 4 = false →
        removeDuplicates [a, b, c, d, e] = [a, c, e]) := by
  constructor
  · intro l
    exact ⟨deletionSchedule_pairwise l, (deletionSchedule_pairwise l).imp ne_of_gt⟩
  · intro a b c d e h0 h1 h2 h3 h4
    rw [removeDuplicates_eq_eraseIdxSet]
    simp [eraseIdxSet, h0, h1, h2, h3, h4]

/-- Witness for C2 at a concrete 5-element list [x, x, y, y, z] whose
positions 1 and 3 duplicate positions 0 and 2. -/
theorem index_safe_removal_witness :
    removeDuplicates [recX, recX, recY, recY, recZ] = [recX, recY, recZ] :=
  index_safe_removal.2 recX recX recY recY recZ
    (by decide) (by decide) (by decide) (by decide) (by decide)

/-- Claim C3 (code bug): master-list production is not unconditional.  On
a run whose directory listing ends with a non-xlsx entry, the lastIndex
flag only becomes true on that final entry, which the extension filter
skips, so master-list.xlsx is never written even though records were
loaded; work-list.xlsx is still written.  When the last entry is an xlsx
file the master is written with the full concatenation. -/
theorem master_list_not_unconditional :
    (runConsolidation [("results.xlsx", Except.ok [recA]),
        ("readme.txt", Except.ok [])]).master = none
    ∧ (runConsolidation [("results.xlsx", Except.ok [recA]),
        ("readme.txt", Except.ok [])]).workList = some [recA]
    ∧ (runConsolidation [("results.xlsx", Except.ok [recA]),
        ("final.xlsx", Except.ok [recC])]).master = some [recA, recC] := by
  decide

/-- Claim C4: the duplicate-removal pass is idempotent - running it a
second time on its own output removes nothing. -/
theorem dedup_idempotent (l : List ViolationRecord) :
    removeDuplicates (removeDuplicates l) = removeDuplicates l := by
  rw [removeDuplicates_eq_keepFirst l, removeDuplicates_eq_keepFirst, keepFirst_idem]

/-- Claim C5: records with absent target or failureSummary carry the
absent sentinel (none) for equality purposes, and two records whose
failureSummary is absent on both sides and whose targets are equal
(including both absent) are duplicates under the detection comparison:
the detection marks exactly index 1 and the pass keeps only the first
record. -/
theorem absent_fields_are_duplicates (a b : ViolationRecord)
    (hfa : a.failureSummary = none) (hfb : b.failureSummary = none)
    (ht : a.target = b.target) :
    indicesToDelete [a, b] = [1] ∧ removeDuplicates [a, b] = [a] := by
  have hrange : List.range 2 = [0, 1] := rfl
  constructor
  · simp [indicesToDelete, hrange, hfa, hfb, ht]
  · rw [removeDuplicates_eq_keepFirst]
    simp [keepFirst, dupKey, hfa, hfb, ht]

/-- Witness for C5 at two concrete records whose target and failureSummary
are both absent. -/
theorem absent_fields_are_duplicates_witness :
    indicesToDelete [{ page := "p1" }, { page := "p2" }] = [1]
    ∧ removeDuplicates [{ page := "p1" }, { page := "p2" }] = [{ page := "p1" }] :=
  absent_fields_are_duplicates { page := "p1" } { page := "p2" } rfl rfl rfl

/-- Claim C6 counterexample: the ada.test.ts module-global accumulator
leaks across page visits - after a first visit contributing one record,
the file written for the second page contains the first pages record too,
so it is not exactly the second pages flattened records. -/
theorem shared_accumulator_leaks :
    (adaRun [("a", [recX]), ("b", [recY])]).files
      = [("a", [recX]), ("b", [recX, recY])]
    ∧ [recX, recY] ≠ [recY] := by
  decide

/-- Claim C6 amended: tfg.test.ts accumulates visit-locally - every write
event of a tfg run carries exactly the flattened records of the visit
that produced it, and every visit with a nonempty record list yields its
file - whereas ada.test.ts (and at-scale.test.ts, which shares the
pattern) pushes onto one module-global array and writes that array, so a
pages file holds every record accumulated so far in the worker. -/
theorem visit_local_accumulation :
    (∀ visits out, out ∈ tfgRun visits →
      ∃ v ∈ visits, out = (tfgDestination v.1 v.2.1, v.2.2))
    ∧ (∀ visits slug browserName recs, (slug, browserName, recs) ∈ visits →
        recs ≠ [] → (tfgDestination slug browserName, recs) ∈ tfgRun visits)
    ∧ (∀ st slug recs, (adaVisit st slug recs).sheetData = st.sheetData ++ recs) := by
  refine ⟨?_, ?_, ?_⟩
  · intro visits out hout
    rw [tfgRun, List.mem_filterMap] at hout
    obtain ⟨v, hv, heq⟩ := hout
    rw [tfgVisit] at heq
    by_cases hlen : v.2.2.length > 0
    · rw [if_pos hlen] at heq
      exact ⟨v, hv, (Option.some_inj.mp heq).symm⟩
    · rw [if_neg hlen] at heq
      exact absurd heq (by simp)
  · intro visits slug browserName recs hmem hne
    rw [tfgRun, List.mem_filterMap]
    refine ⟨(slug, browserName, recs), hmem, ?_⟩
    rw [tfgVisit, if_pos (List.length_pos.mpr hne)]
  · intro st slug recs
    by_cases h : (st.sheetData ++ recs).length > 0
    · simp only [adaVisit, if_pos h]
    · simp only [adaVisit, if_neg h]

/-- Witness for the amended C6 at one concrete tfg visit. -/
theorem visit_local_accumulation_witness :
    (tfgDestination "a" "Chrome", [recX]) ∈ tfgRun [("a", "Chrome", [recX])] :=
  visit_local_accumulation.2.1 [("a", "Chrome", [recX])] "a" "Chrome" [recX]
    (by simp) (by decide)

/-- Claim C7 counterexample: a zero-violation page visit does produce a
file in ada.test.ts when an earlier visit left records in the shared
global array - page b below yields zero violations, yet a file named b
holding the leftover record is written. -/
theorem empty_page_writes_file :
    (adaRun [("a", [recX]), ("b", [])]).files = [("a", [recX]), ("b", [recX])] := by
  decide

/-- Claim C7 amended: in tfg.test.ts a zero-violation visit never writes a
file; in ada.test.ts a zero-violation visit writes a file exactly when the
shared accumulator is nonempty, and the file then holds those leftover
records. -/
theorem empty_page_skip :
    (∀ slug browserName, tfgVisit slug browserName [] = none)
    ∧ (∀ st slug, (adaVisit st slug []).files
        = st.files ++ (if st.sheetData.length > 0
            then [(adaFileName slug, st.sheetData)] else [])) := by
  constructor
  · intro slug browserName
    rfl
  · intro st slug
    by_cases h : st.sheetData.length > 0
    · simp [adaVisit, h]
    · simp [adaVisit, h]

/-- Claim C8 counterexample: the ada.test.ts writer applies no
sanitization - the destination stem for the slug
case-studies/allianz-trade/ is the slug itself, which contains the path
separator and does not match [A-Za-z0-9_]+. -/
theorem ada_writer_not_sanitized :
    adaFileName "case-studies/allianz-trade/" = "case-studies/allianz-trade/"
    ∧ ((adaFileName "case-studies/allianz-trade/").toList.all isSafeChar = false)
    ∧ '/' ∈ (adaFileName "case-studies/allianz-trade/").toList := by
  decide

/-- Claim C8 amended: the tfg.test.ts and at-scale.test.ts writers
sanitize every destination name - each character outside [A-Za-z0-9]
becomes an underscore, so the stem consists only of [A-Za-z0-9_]
characters and keeps the length of its input (hence is nonempty for a
nonempty slug), and the example slug maps to case_studies_allianz_trade_
- while the ada.test.ts writer uses the slug verbatim. -/
theorem sanitize_destination :
    (∀ s, ((sanitizeSlug s).toList.all isSafeChar) = true
      ∧ (sanitizeSlug s).length = s.length)
    ∧ sanitizeSlug "case-studies/allianz-trade/" = "case_studies_allianz_trade_"
    ∧ tfgDestination "case-studies/allianz-trade/" "Google Chrome"
        = "case_studies_allianz_trade__Google_Chrome" := by
  refine ⟨fun s => ⟨?_, ?_⟩, by decide, by decide⟩
  · rw [sanitizeSlug]
    rw [show (String.mk (s.toList.map fun c => if isAsciiAlphanum c then c else '_')).toList
        = s.toList.map fun c => if isAsciiAlphanum c then c else '_' from rfl]
    rw [List.all_eq_true]
    intro c hc
    rw [List.mem_map] at hc
    obtain ⟨c0, _, rfl⟩ := hc
    by_cases h : isAsciiAlphanum c0
    · simp [isSafeChar, h]
    · simp [isSafeChar, h]
  · rw [sanitizeSlug]
    show (s.toList.map fun c => if isAsciiAlphanum c then c else '_').length = s.length
    rw [List.length_map]
    rfl

/-- Claim C9 counterexample: with a single unreadable file (zero files
read) the run does not abort - work-list.xlsx is still written, empty -
and a read failure on the last directory entry is not fatal to that file
only: it also suppresses the master list covering the other files. -/
theorem read_failure_counterexample :
    (runConsolidation [("a.xlsx", Except.error ())]).workList = some []
    ∧ (runConsolidation [("a.xlsx", Except.ok [recA]),
        ("b.xlsx", Except.error ())]).master = none := by
  decide

/-- Claim C9 amended: a failed read is silently dropped (nothing is
pushed for that file) while later files are still processed, and the run
never aborts: the work list is produced on every run, even when zero
files could be read. -/
theorem read_failure_behavior :
    (∀ files, (runConsolidation files).workList.isSome = true)
    ∧ (∀ r, (runConsolidation [("a.xlsx", Except.error ()),
        ("b.xlsx", Except.ok [r])]).workList = some [r]) := by
  constructor
  · intro files
    rfl
  · intro r
    have h2 : (runConsolidation [("a.xlsx", Except.error ()),
        ("b.xlsx", Except.ok [r])]).workList = some (removeDuplicates [r]) := rfl
    rw [h2, removeDuplicates_eq_keepFirst]
    simp [keepFirst]

/-- Claim C10: the consolidation filter admits every directory entry with
extension .xlsx, including the pipeline outputs of a prior run:
master-list.xlsx and work-list.xlsx pass the extension test, and a run
over a directory holding them loads their records into the working
sequence. -/
theorem filter_admits_prior_outputs :
    extname "master-list.xlsx" = ".xlsx"
    ∧ extname "work-list.xlsx" = ".xlsx"
    ∧ (∀ m w, loadedRecords
        [("master-list.xlsx", Except.ok m), ("work-list.xlsx", Except.ok w)]
        = m ++ w) := by
  exact ⟨by decide, by decide, fun m w => rfl⟩

end AdaScanner
